import Mathlib

/-!
# Verification of the sleep-bandit core

A shallow embedding, in Lean 4, of the core of the `sleep-bandit`
application: the dense linear-algebra primitives of `src/lib/matrix.ts`,
the Bayesian posterior engine of `src/lib/bayesian.ts`, the nightly
selection policy of `useAppState.rollTonight`, and the event-sourced
replay engine of `src/lib/events.ts`.

JavaScript `number[]` vectors and `number[][]` matrices are embedded as
`List ℚ` and `List (List ℚ)`; the only operation of the verified
fragment that leaves the rationals is the square root used for posterior
standard deviations and the exponential inside `normalCDF`, which are
modelled with `Real.sqrt` and `Real.exp`.  Fallible code (the strict
replay of the event log, which throws on an unrecognized event type) is
embedded with `Except String`.
-/

namespace SleepBandit

/-! ## Linear algebra core (`src/lib/matrix.ts`) -/

/-- `number[][]` dense matrices, as in `matrix.ts`. -/
abbrev Mat := List (List ℚ)

/-- Read entry `A[i][j]`, with the JavaScript out-of-bounds reads never
exercised by the verified code paths defaulting to `0`. -/
def entry (A : Mat) (i j : Nat) : ℚ := (A.getD i []).getD j 0

/-- `zeros(rows, cols)`. -/
def zeros (rows cols : Nat) : Mat :=
  List.replicate rows (List.replicate cols (0 : ℚ))

/-- `identity(n)`: the `n × n` matrix with `1` on the diagonal and `0`
elsewhere (built in `matrix.ts` as `zeros` with the diagonal set). -/
def identity (n : Nat) : Mat :=
  (List.range n).map (fun i => (List.range n).map (fun j => if i = j then (1 : ℚ) else 0))

/-- `transpose(A)` (returns `[]` on an empty input, else uses
`A.length × A[0].length`). -/
def transpose (A : Mat) : Mat :=
  if A.length = 0 then []
  else
    let rows := A.length
    let cols := (A.getD 0 []).length
    (List.range cols).map (fun j => (List.range rows).map (fun i => entry A i j))

/-- `matmul(A, B)`; the inner accumulation loop of `matrix.ts` becomes a sum. -/
def matmul (A B : Mat) : Mat :=
  if A.length = 0 ∨ B.length = 0 then []
  else
    let rowsA := A.length
    let colsA := (A.getD 0 []).length
    let colsB := (B.getD 0 []).length
    (List.range rowsA).map (fun i =>
      (List.range colsB).map (fun j =>
        (((List.range colsA).map (fun k => entry A i k * entry B k j)).sum)))

/-- Map a list together with element positions; embeds the JavaScript
`arr.map((v, i) => ...)` idiom. -/
def mapWithIndex (f : Nat → α → β) : List α → List β
  | [] => []
  | a :: l => f 0 a :: mapWithIndex (fun i x => f (i + 1) x) l

/-- `addMatrices(A, B) = A.map((row, i) => row.map((v, j) => v + B[i][j]))`. -/
def addMatrices (A B : Mat) : Mat :=
  mapWithIndex (fun i row => mapWithIndex (fun j v => v + entry B i j) row) A

/-- `scaleMatrix(A, s)`. -/
def scaleMatrix (A : Mat) (s : ℚ) : Mat :=
  A.map (fun row => row.map (fun v => v * s))

/-- Write entry `(i, j)` of a matrix (`A[i][j] = v`; a silent no-op out of
bounds, which the source never exercises). -/
def setEntry (A : Mat) (i j : Nat) (v : ℚ) : Mat :=
  A.set i ((A.getD i []).set j v)

/-- Swap rows `i` and `j` of a matrix (the destructuring swap of `inverse`). -/
def swapRows (A : Mat) (i j : Nat) : Mat :=
  let ri := A.getD i []
  let rj := A.getD j []
  (A.set i rj).set j ri

/-- The `(L, U, P)` state threaded through the LU factorization loop of
`inverse`. -/
structure LUState where
  L : Mat
  U : Mat
  P : Mat

/-- One iteration (column `k`) of the LU factorization loop of `inverse`:
select the max-magnitude pivot in column `k`, swap rows in `L`, `U`, `P`,
then eliminate below the pivot.  `bestIdx = -1 / maxVal` bookkeeping is the
pair accumulator of the pivot-search fold. -/
def luStep (n : Nat) (s : LUState) (k : Nat) : LUState :=
  let pivot := (List.range' (k + 1) (n - (k + 1))).foldl
    (fun acc i => if |entry s.U i k| > acc.1 then (|entry s.U i k|, i) else acc)
    (|entry s.U k k|, k)
  let maxRow := pivot.2
  let s := if maxRow = k then s else
    ⟨swapRows s.L k maxRow, swapRows s.U k maxRow, swapRows s.P k maxRow⟩
  let L0 := setEntry s.L k k 1
  (List.range' (k + 1) (n - (k + 1))).foldl
    (fun t i =>
      let lik := entry t.U i k / entry t.U k k
      let L' := setEntry t.L i k lik
      let U' := (List.range' k (n - k)).foldl
        (fun u j => setEntry u i j (entry u i j - lik * entry u k j)) t.U
      ⟨L', U', t.P⟩)
    ⟨L0, s.U, s.P⟩

/-- Forward substitution of `inverse`: `y[i] = P[i][col] - Σ_{j<i} L[i][j]·y[j]`. -/
def forwardSub (L : Mat) (b : List ℚ) (n : Nat) : List ℚ :=
  (List.range n).foldl
    (fun y i => y ++ [b.getD i 0 - ((List.range i).map (fun j => entry L i j * y.getD j 0)).sum])
    []

/-- Back substitution of `inverse`, building the column bottom-up:
`x[i] = (y[i] - Σ_{j>i} U[i][j]·x[j]) / U[i][i]`.  The accumulator holds the
already-computed tail `x[i+1..n-1]`. -/
def backSub (U : Mat) (y : List ℚ) (n : Nat) : List ℚ :=
  (List.range n).foldr
    (fun i xs =>
      ((y.getD i 0 - ((List.range' (i + 1) (n - (i + 1))).map
          (fun j => entry U i j * xs.getD (j - (i + 1)) 0)).sum) / entry U i i) :: xs)
    []

/-- `inverse(A)`: LU decomposition with partial pivoting followed by a
forward/back substitution per column of `P` (`matrix.ts`). -/
def inverse (A : Mat) : Mat :=
  let n := A.length
  if n = 0 then []
  else
    let s := (List.range n).foldl (luStep n) ⟨zeros n n, A, identity n⟩
    let cols := (List.range n).map (fun col =>
      backSub s.U (forwardSub s.L ((List.range n).map (fun i => entry s.P i col)) n) n)
    (List.range n).map (fun i => (List.range n).map (fun col => (cols.getD col []).getD i 0))

/-- On a `1 × 1` matrix the LU-based `inverse` reduces to the scalar
reciprocal. -/
theorem inverse_singleton (a : ℚ) : inverse [[a]] = [[1 / a]] := by
  simp [inverse, luStep, forwardSub, backSub, zeros, identity, entry, setEntry,
    List.range_succ, List.range']

/-! ## Normal CDF approximation (`src/lib/matrix.ts`, `normalCDF`) -/

/-- `normalCDF(x)`: the Abramowitz–Stegun rational approximation used by
`matrix.ts`, with `Math.abs`, `Math.sqrt` and `Math.exp` modelled over `ℝ`.
The decimal literals are the exact rational constants of the source. -/
noncomputable def normalCDF (x : ℝ) : ℝ :=
  let a1 : ℝ := 0.254829592
  let a2 : ℝ := -0.284496736
  let a3 : ℝ := 1.421413741
  let a4 : ℝ := -1.453152027
  let a5 : ℝ := 1.061405429
  let p : ℝ := 0.3275911
  let sign : ℝ := if x < 0 then -1 else 1
  let absX := |x| / Real.sqrt 2
  let t := 1.0 / (1.0 + p * absX)
  let y := 1.0 - (((((a5 * t + a4) * t) + a3) * t + a2) * t + a1) * t * Real.exp (-absX * absX)
  0.5 * (1.0 + sign * y)

/-! ## Posterior engine (`src/lib/bayesian.ts`) -/

/-- The dense observation rows consumed by `computePosterior`
(`usePosterior.ts` converts the sparse log observations to this shape). -/
structure DenseObservation where
  interventions : List Bool
  score : ℚ
deriving DecidableEq

/-- `{ baseline, tau, sigma }`. -/
structure StatisticalConfig where
  baseline : ℚ
  tau : ℚ
  sigma : ℚ
deriving DecidableEq

/-- The posterior record `{ mean, cov, std, precision }`; `std` holds the
square roots of the covariance diagonal and hence lives in `ℝ`. -/
structure Posterior where
  mean : List ℚ
  cov : Mat
  std : List ℝ
  precision : Mat

/-- The `validObs` filter of `computePosterior`: keep only observations
whose activation vector has exactly the current intervention count. -/
def validObservations (k : Nat) (observations : List DenseObservation) :
    List DenseObservation :=
  observations.filter (fun obs => obs.interventions.length == k)

/-- `computePosterior(interventions, observations, config)`: one conjugate
Gaussian update, exactly as in `bayesian.ts` — filter valid observations,
short-circuit `k = 0` and `n = 0`, else build the binary design matrix and
centered response and invert the posterior precision. -/
noncomputable def computePosterior (interventions : List String)
    (observations : List DenseObservation) (config : StatisticalConfig) :
    Posterior :=
  let k := interventions.length
  if k = 0 then ⟨[], [], [], []⟩
  else
    let tauSq := config.tau * config.tau
    let sigmaSq := config.sigma * config.sigma
    let validObs := validObservations k observations
    let n := validObs.length
    let priorPrecision := scaleMatrix (identity k) (1 / tauSq)
    if n = 0 then
      ⟨List.replicate k 0, scaleMatrix (identity k) tauSq,
        List.replicate k ((config.tau : ℚ) : ℝ), priorPrecision⟩
    else
      let X := validObs.map (fun obs =>
        (List.range k).map (fun i => if obs.interventions.getD i false then (1 : ℚ) else 0))
      let y := validObs.map (fun obs => [obs.score - config.baseline])
      let Xt := transpose X
      let XtX := matmul Xt X
      let Xty := matmul Xt y
      let postPrecision := addMatrices priorPrecision (scaleMatrix XtX (1 / sigmaSq))
      let postCov := inverse postPrecision
      let scaledXty := scaleMatrix Xty (1 / sigmaSq)
      let postMean := (matmul postCov scaledXty).map (fun row => row.getD 0 0)
      let postStd := mapWithIndex (fun i row => Real.sqrt ((row.getD i 0 : ℚ) : ℝ)) postCov
      ⟨postMean, postCov, postStd, postPrecision⟩

/-! ## Data model (`src/types.ts`, current event-sourced shape) -/

/-- `Tag { label, value }`. -/
structure Tag where
  label : String
  value : Bool
deriving DecidableEq

/-- `Notes { tags, text }`. -/
structure Notes where
  tags : List Tag
  text : String
deriving DecidableEq

/-- `NoteTagDefinition { label, description }`. -/
structure NoteTagDefinition where
  label : String
  description : String
deriving DecidableEq

/-- `ChecklistItemDefinition { label, description }`. -/
structure ChecklistItemDefinition where
  label : String
  description : String
deriving DecidableEq

/-- `Intervention { name, disabled }`. -/
structure Intervention where
  name : String
  disabled : Bool
deriving DecidableEq

/-- `Group { name, interventionIndices }`. -/
structure Group where
  name : String
  interventionIndices : List Nat
deriving DecidableEq

/-- The sparse observation produced by replay: three timestamps, the set of
active intervention indices, the score, and optional notes. -/
structure Observation where
  nightDate : String
  sleepDate : String
  recordDate : String
  activeInterventions : List Nat
  score : ℚ
  notes : Option Notes
deriving DecidableEq

/-- `PendingNight { date, interventions, samples, asleep }`. -/
structure PendingNight where
  date : String
  interventions : List Bool
  samples : List ℚ
  asleep : Bool
deriving DecidableEq

/-- The materialized application state produced by replay. -/
structure AppState where
  interventions : List Intervention
  observations : List Observation
  pendingNight : Option PendingNight
  groups : List Group
  config : StatisticalConfig
  noteTagDefinitions : List NoteTagDefinition
  checklistItems : List ChecklistItemDefinition
deriving DecidableEq

/-- `Partial<StatisticalConfig>` as carried by `UPDATE_CONFIG`. -/
structure PartialConfig where
  baseline : Option ℚ
  tau : Option ℚ
  sigma : Option ℚ
deriving DecidableEq

/-! ## Event catalog and replay (`src/lib/events.ts`) -/

/-- The closed `AppEvent` union of `events.ts`, each constructor carrying its
timestamp.  `IMPORT_DATA` embeds a foreign event log (its `version` and
`events`).  The extra `UNKNOWN` constructor stands for a raw log entry whose
`type` string is outside the catalog — the runtime possibility the strict
replay contract is about. -/
inductive AppEvent where
  | INIT (timestamp : String) (state : AppState)
  | ADD_INTERVENTION (timestamp : String) (name : String)
  | RENAME_INTERVENTION (timestamp : String) (index : Nat) (newName : String)
  | TOGGLE_INTERVENTION_DISABLED (timestamp : String) (index : Nat)
  | ADD_GROUP (timestamp : String) (group : Group)
  | REMOVE_GROUP (timestamp : String) (index : Nat)
  | UPDATE_GROUP (timestamp : String) (index : Nat) (group : Group)
  | ADD_NOTE_TAG (timestamp : String) (tag : NoteTagDefinition)
  | UPDATE_NOTE_TAG (timestamp : String) (index : Nat) (tag : NoteTagDefinition)
  | ADD_CHECKLIST_ITEM (timestamp : String) (item : ChecklistItemDefinition)
  | UPDATE_CHECKLIST_ITEM (timestamp : String) (index : Nat) (item : ChecklistItemDefinition)
  | REMOVE_CHECKLIST_ITEM (timestamp : String) (index : Nat)
  | ROLL_TONIGHT (timestamp : String) (samples : List ℚ) (activeInterventions : List Bool)
  | TOGGLE_PENDING_INTERVENTION (timestamp : String) (index : Nat) (active : Bool)
  | CHECK_CHECKLIST_ITEM (timestamp : String) (index : Nat) (label : String) (checked : Bool)
  | MARK_ASLEEP (timestamp : String)
  | TOGGLE_NOTE_TAG (timestamp : String) (label : String) (checked : Bool)
  | RECORD_SCORE (timestamp : String) (score : ℚ) (notes : Notes)
  | CANCEL_PENDING (timestamp : String)
  | IMPORT_DATA (timestamp : String) (version : Int) (events : List AppEvent)
  | IMPORT_HISTORICAL (timestamp : String) (interventions : List Intervention)
      (observations : List Observation)
  | UPDATE_CONFIG (timestamp : String) (config : PartialConfig)
  | UNKNOWN (timestamp : String) (tag : String)

/-- `DEFAULT_NOTE_TAG_DEFINITIONS` (`src/lib/noteTags.ts`). -/
def DEFAULT_NOTE_TAG_DEFINITIONS : List NoteTagDefinition :=
  [⟨"wokeUpLong", "Woke up in middle of night (1+ hours)"⟩,
   ⟨"nightmares", "Had nightmares"⟩,
   ⟨"nightSweats", "Had night sweats"⟩]

/-- `DEFAULT_STATE` (`events.ts`). -/
def DEFAULT_STATE : AppState :=
  ⟨[], [], none, [], ⟨69, 2.5, 12⟩, DEFAULT_NOTE_TAG_DEFINITIONS, []⟩

/-- `arr.map((x, i) => i === n ? f(x) : x)`: replace the element at
position `n` in place (no-op past the end), the update idiom of the
replay engine. -/
def updateNth (l : List α) (n : Nat) (f : α → α) : List α :=
  mapWithIndex (fun i a => if i = n then f a else a) l

/-- The indices at which a dense boolean vector is `true`, in order — the
`forEach`/`push` loop that `RECORD_SCORE` replays into
`activeInterventions`. -/
def activeIndices (flags : List Bool) : List Nat :=
  (flags.enum.filter (fun p => p.2)).map (fun p => p.1)

/-- `{...state.config, ...event.config}`: partial config override. -/
def mergeConfig (c : StatisticalConfig) (p : PartialConfig) : StatisticalConfig :=
  ⟨p.baseline.getD c.baseline, p.tau.getD c.tau, p.sigma.getD c.sigma⟩

mutual

/-- `applyEvent(state, event)` from `events.ts`, a pure fold step over the
closed event union.  The optional `ReplayContext` argument of the source is
dropped: its fields are written during replay but never read, so it has no
effect on the returned state.  The `default` arm (unreachable for catalog
events, hit by an unrecognized raw event) throws, embedded as
`Except.error`. -/
def applyEvent (state : AppState) (event : AppEvent) : Except String AppState :=
  match event with
  | .INIT _ s => .ok s
  | .ADD_INTERVENTION _ name =>
      if state.interventions.any (fun int => int.name == name) then .ok state
      else .ok { state with interventions := state.interventions ++ [⟨name, false⟩] }
  | .RENAME_INTERVENTION _ index newName =>
      if state.interventions.any (fun int => int.name == newName) then .ok state
      else .ok { state with
        interventions := updateNth state.interventions index (fun int => { int with name := newName }) }
  | .TOGGLE_INTERVENTION_DISABLED _ index =>
      .ok { state with
        interventions := updateNth state.interventions index
          (fun int => { int with disabled := !int.disabled }) }
  | .ADD_GROUP _ group => .ok { state with groups := state.groups ++ [group] }
  | .REMOVE_GROUP _ index => .ok { state with groups := state.groups.eraseIdx index }
  | .UPDATE_GROUP _ index group =>
      .ok { state with groups := updateNth state.groups index (fun _ => group) }
  | .ADD_NOTE_TAG _ tag =>
      .ok { state with noteTagDefinitions := state.noteTagDefinitions ++ [tag] }
  | .UPDATE_NOTE_TAG _ index tag =>
      .ok { state with noteTagDefinitions := updateNth state.noteTagDefinitions index (fun _ => tag) }
  | .ADD_CHECKLIST_ITEM _ item =>
      .ok { state with checklistItems := state.checklistItems ++ [item] }
  | .UPDATE_CHECKLIST_ITEM _ index item =>
      .ok { state with checklistItems := updateNth state.checklistItems index (fun _ => item) }
  | .REMOVE_CHECKLIST_ITEM _ index =>
      .ok { state with checklistItems := state.checklistItems.eraseIdx index }
  | .ROLL_TONIGHT timestamp samples activeInterventions =>
      .ok { state with pendingNight := some ⟨timestamp, activeInterventions, samples, false⟩ }
  | .TOGGLE_PENDING_INTERVENTION _ index active =>
      match state.pendingNight with
      | none => .ok state
      | some pending =>
          let pending' := { pending with
            interventions := updateNth pending.interventions index (fun _ => active) }
          .ok { state with pendingNight := some pending' }
  | .CHECK_CHECKLIST_ITEM _ _ _ _ => .ok state  -- logged but no derived state change
  | .MARK_ASLEEP _ =>
      .ok { state with pendingNight :=
        match state.pendingNight with
        | some pending => some ({ pending with asleep := true })
        | none => none }
  | .TOGGLE_NOTE_TAG _ _ _ => .ok state  -- notes accumulate in the UI; snapshot at RECORD_SCORE
  | .RECORD_SCORE timestamp score notes =>
      match state.pendingNight with
      | none => .ok state
      | some pending =>
          let nightDate := pending.date
          let observation : Observation :=
            { nightDate := nightDate
              sleepDate := nightDate  -- best approximation from pending date
              recordDate := timestamp
              activeInterventions := activeIndices pending.interventions
              score := score
              notes := some notes }
          .ok { state with
            observations := state.observations ++ [observation]
            pendingNight := none }
  | .CANCEL_PENDING _ => .ok { state with pendingNight := none }
  | .IMPORT_DATA _ _ events => replayList DEFAULT_STATE events
  | .IMPORT_HISTORICAL _ interventions observations =>
      .ok { state with
        interventions := interventions
        observations := observations
        pendingNight := none }
  | .UPDATE_CONFIG _ config => .ok { state with config := mergeConfig state.config config }
  | .UNKNOWN _ tag => .error ("Unknown event type: " ++ tag)

/-- The `events.reduce(applyEvent, ...)` fold, with the error of the strict
`default` arm propagated: replay aborts at the first failing event. -/
def replayList (state : AppState) (events : List AppEvent) : Except String AppState :=
  match events with
  | [] => .ok state
  | e :: rest =>
      match applyEvent state e with
      | .ok state' => replayList state' rest
      | .error msg => .error msg

end

/-- `replayEvents(events)`: fold the log over `DEFAULT_STATE`. -/
def replayEvents (events : List AppEvent) : Except String AppState :=
  replayList DEFAULT_STATE events

/-! ## Selection policy (`useAppState.rollTonight`) -/

/-- `state.interventions[i].disabled` as read by `rollTonight`; the verified
statements always keep `i` within the intervention list, where the default
is never used. -/
def disabledAt (interventions : List Intervention) (i : Nat) : Bool :=
  (interventions.getD i ⟨"", false⟩).disabled

/-- The loop-body condition of the best-in-group search:
`idx < samples.length && !interventions[idx].disabled && samples[idx] > bestSample`,
with the `-Infinity` initial `bestSample` making the comparison vacuously
true for a `none` accumulator. -/
def bestCond (interventions : List Intervention) (samples : List ℚ)
    (acc : Option (Nat × ℚ)) (idx : Nat) : Bool :=
  decide (idx < samples.length) && !(disabledAt interventions idx) &&
    (match acc with
      | none => true
      | some best => decide (samples.getD idx 0 > best.2))

def bestStep (interventions : List Intervention) (samples : List ℚ)
    (acc : Option (Nat × ℚ)) (idx : Nat) : Option (Nat × ℚ) :=
  if bestCond interventions samples acc idx then
    some (idx, samples.getD idx 0)
  else acc

def bestInGroup (interventions : List Intervention) (samples : List ℚ)
    (g : Group) : Option (Nat × ℚ) :=
  g.interventionIndices.foldl (bestStep interventions samples) none

/-- One group pass of `rollTonight`: deactivate every member, then activate
the best member alone, and only if its sample is positive (and it is not
disabled — the source rechecks the flag). -/
def processGroup (interventions : List Intervention) (samples : List ℚ)
    (active : List Bool) (g : Group) : List Bool :=
  let best := bestInGroup interventions samples g
  let deactivated := g.interventionIndices.foldl (fun a idx => a.set idx false) active
  match best with
  | some (bestIdx, bestSample) =>
      if decide (0 < bestSample) && !(disabledAt interventions bestIdx) then
        deactivated.set bestIdx true
      else deactivated
  | none => deactivated

/-- The activation vector computed by `rollTonight` from a Thompson sample
vector: start from `sample > 0 && !disabled`, then apply each group's
mutual-exclusivity pass in order. -/
def rollActive (interventions : List Intervention) (groups : List Group)
    (samples : List ℚ) : List Bool :=
  let active := mapWithIndex
    (fun i s => decide (0 < s) && !(disabledAt interventions i)) samples
  groups.foldl (processGroup interventions samples) active

/-! ## Replay engine lemmas -/

/-- Replaying a singleton log is one `applyEvent` step. -/
theorem replayList_singleton (s : AppState) (e : AppEvent) :
    replayList s [e] = applyEvent s e := by
  cases h : applyEvent s e <;> simp [replayList, h]

/-- The replay fold splits over list append. -/
theorem replayList_append (s : AppState) (l₁ l₂ : List AppEvent) :
    replayList s (l₁ ++ l₂) = (replayList s l₁).bind (fun s' => replayList s' l₂) := by
  induction l₁ generalizing s with
  | nil => rfl
  | cons e rest ih =>
      simp only [List.cons_append, replayList]
      cases h : applyEvent s e with
      | error msg => rfl
      | ok s' => exact ih s'

/-- Is this event the embedded stand-in for a raw log entry whose type is
outside the catalog? -/
def isUnknown : AppEvent → Bool
  | .UNKNOWN _ _ => true
  | _ => false

/-- An out-of-catalog event makes `applyEvent` throw. -/
theorem applyEvent_error_of_isUnknown (s : AppState) (e : AppEvent)
    (h : isUnknown e = true) : ∃ msg, applyEvent s e = .error msg := by
  cases e <;> simp [isUnknown] at h
  exact ⟨_, rfl⟩

/-- A log containing an out-of-catalog event never replays to a state,
from any starting state. -/
theorem replayList_error_of_unknown (s : AppState) (events : List AppEvent)
    (h : events.any isUnknown = true) : ∃ msg, replayList s events = .error msg := by
  induction events generalizing s with
  | nil => simp at h
  | cons e rest ih =>
      cases happ : applyEvent s e with
      | error msg => exact ⟨msg, by simp [replayList, happ]⟩
      | ok s' =>
          have he : isUnknown e = false := by
            by_contra hne
            obtain ⟨msg, hmsg⟩ := applyEvent_error_of_isUnknown s e
              (by revert hne; cases isUnknown e <;> simp)
            rw [happ] at hmsg
            exact Except.noConfusion hmsg
          have hrest : rest.any isUnknown = true := by
            simpa [List.any_cons, he] using h
          obtain ⟨msg, hmsg⟩ := ih s' hrest
          exact ⟨msg, by simp [replayList, happ, hmsg]⟩

/-! ## List helper lemmas -/

theorem length_mapWithIndex (f : Nat → α → β) (l : List α) :
    (mapWithIndex f l).length = l.length := by
  induction l generalizing f with
  | nil => rfl
  | cons a t ih => simp [mapWithIndex, ih]

theorem getD_mapWithIndex (f : Nat → α → α) (l : List α) (i : Nat) (d : α) :
    (mapWithIndex f l).getD i d = if i < l.length then f i (l.getD i d) else d := by
  induction l generalizing f i with
  | nil => simp [mapWithIndex]
  | cons a t ih =>
      cases i with
      | zero => simp [mapWithIndex]
      | succ j => simpa [mapWithIndex, Nat.succ_lt_succ_iff] using ih (fun i x => f (i + 1) x) j

theorem length_updateNth (l : List α) (n : Nat) (f : α → α) :
    (updateNth l n f).length = l.length :=
  length_mapWithIndex _ _

theorem getD_updateNth (l : List α) (n : Nat) (f : α → α) (i : Nat) (d : α) :
    (updateNth l n f).getD i d =
      if i = n ∧ i < l.length then f (l.getD i d) else l.getD i d := by
  simp only [updateNth, getD_mapWithIndex]
  by_cases h1 : i < l.length
  · by_cases h2 : i = n
    · subst h2; simp [h1]
    · simp [h1, h2]
  · have hd : l.getD i d = d := List.getD_eq_default _ _ (le_of_not_lt h1)
    by_cases h2 : i = n
    · subst h2; simp only [h1, if_false, and_false]; exact hd.symm
    · simp only [h1, h2, if_false, and_false, false_and]; exact hd.symm

/-- The three event types that replace interventions/observations wholesale
(`INIT`, `IMPORT_DATA`, `IMPORT_HISTORICAL`); all others only append or
update in place. -/
def isStateReplacing : AppEvent → Bool
  | .INIT _ _ => true
  | .IMPORT_DATA _ _ _ => true
  | .IMPORT_HISTORICAL _ _ _ => true
  | _ => false

/-! ## Claim theorems -/

/-- C2: replay is deterministic and incremental — replaying `log ++ [e]`
equals applying `e` to the replay of `log` (with the replay failure, if any,
propagated by `bind`), and replaying the same event list twice yields the
same `AppState`. -/
theorem replay_deterministic_incremental (log : List AppEvent) (e : AppEvent) :
    replayEvents (log ++ [e]) = (replayEvents log).bind (fun s => applyEvent s e) ∧
    ∀ log', log' = log → replayEvents log' = replayEvents log := by
  constructor
  · rw [replayEvents, replayList_append]
    simp [replayEvents, replayList_singleton]
  · intro log' hl
    rw [hl]

/-- Witness for C2 on a concrete two-event log. -/
theorem replay_deterministic_incremental_witness :
    replayEvents ([AppEvent.ADD_INTERVENTION "t0" "Melatonin"] ++ [AppEvent.MARK_ASLEEP "t1"]) =
      (replayEvents [AppEvent.ADD_INTERVENTION "t0" "Melatonin"]).bind
        (fun s => applyEvent s (AppEvent.MARK_ASLEEP "t1")) ∧
    replayEvents [AppEvent.ADD_INTERVENTION "t0" "Melatonin"] =
      replayEvents [AppEvent.ADD_INTERVENTION "t0" "Melatonin"] :=
  ⟨(replay_deterministic_incremental [AppEvent.ADD_INTERVENTION "t0" "Melatonin"]
      (AppEvent.MARK_ASLEEP "t1")).1,
   (replay_deterministic_incremental [AppEvent.ADD_INTERVENTION "t0" "Melatonin"]
      (AppEvent.MARK_ASLEEP "t1")).2 _ rfl⟩

/-- C3: a log containing an event whose type is outside the closed catalog
never replays to a state — `replayEvents` fails with an error, producing no
partial state. -/
theorem replay_fails_on_unknown_event (events : List AppEvent)
    (h : events.any isUnknown = true) : ∃ msg, replayEvents events = .error msg :=
  replayList_error_of_unknown DEFAULT_STATE events h

/-- Witness for C3: a one-event log with an unrecognized type fails. -/
theorem replay_fails_on_unknown_event_witness :
    ([AppEvent.UNKNOWN "2024-01-01" "BOGUS_EVENT"].any isUnknown = true) ∧
    ∃ msg, replayEvents [AppEvent.UNKNOWN "2024-01-01" "BOGUS_EVENT"] = .error msg :=
  ⟨rfl, replay_fails_on_unknown_event [AppEvent.UNKNOWN "2024-01-01" "BOGUS_EVENT"] rfl⟩

/-- C1: replay of `ROLL_TONIGHT`, `MARK_ASLEEP`, `RECORD_SCORE` — the
produced observation's `nightDate` and `recordDate` are the `ROLL_TONIGHT`
and `RECORD_SCORE` timestamps, but its `sleepDate` is copied from
`nightDate` (the `// best approximation from pending date` line of the
`RECORD_SCORE` arm), NOT from the `MARK_ASLEEP` timestamp as the spec's
data model requires: here `MARK_ASLEEP` carries a distinct timestamp and
the replayed `sleepDate` still equals the `ROLL_TONIGHT` one. -/
theorem recordScore_sleepDate_is_rollDate :
    replayEvents
      [.ROLL_TONIGHT "2024-01-01T21:00:00Z" [1] [true],
       .MARK_ASLEEP "2024-01-01T23:30:00Z",
       .RECORD_SCORE "2024-01-02T07:00:00Z" 80 ⟨[], ""⟩] =
      .ok { DEFAULT_STATE with observations :=
        [{ nightDate := "2024-01-01T21:00:00Z"
           sleepDate := "2024-01-01T21:00:00Z"
           recordDate := "2024-01-02T07:00:00Z"
           activeInterventions := [0]
           score := 80
           notes := some ⟨[], ""⟩ }] } ∧
    (("2024-01-01T21:00:00Z" : String) == "2024-01-01T23:30:00Z") = false :=
  ⟨rfl, rfl⟩

/-- C9: for every event other than the state-replacing `INIT`,
`IMPORT_DATA` and `IMPORT_HISTORICAL`, a successful `applyEvent` only ever
appends to the observation list (the old list is a prefix, every prior
entry unchanged) and keeps every existing intervention at its position,
at most renamed or disable-toggled in place (so the list never shrinks). -/
theorem applyEvent_never_deletes (s : AppState) (e : AppEvent) (s' : AppState)
    (hE : isStateReplacing e = false) (h : applyEvent s e = .ok s') :
    s.observations <+: s'.observations ∧
    s.interventions.length ≤ s'.interventions.length ∧
    ∀ i, i < s.interventions.length →
      (s'.interventions.getD i ⟨"", false⟩).name = (s.interventions.getD i ⟨"", false⟩).name ∨
      (s'.interventions.getD i ⟨"", false⟩).disabled =
        (s.interventions.getD i ⟨"", false⟩).disabled := by
  cases e with
  | INIT ts st => simp [isStateReplacing] at hE
  | IMPORT_DATA ts v evs => simp [isStateReplacing] at hE
  | IMPORT_HISTORICAL ts ints obs => simp [isStateReplacing] at hE
  | UNKNOWN ts tag => exact absurd h (by simp [applyEvent])
  | ADD_INTERVENTION ts name =>
      rw [applyEvent] at h
      split at h <;> injection h with h <;> subst h
      · exact ⟨List.prefix_refl _, le_refl _, fun i hi => Or.inl rfl⟩
      · refine ⟨List.prefix_refl _, by simp, fun i hi => Or.inl ?_⟩
        rw [List.getD_append _ _ _ _ hi]
  | RENAME_INTERVENTION ts index newName =>
      rw [applyEvent] at h
      split at h <;> injection h with h <;> subst h
      · exact ⟨List.prefix_refl _, le_refl _, fun i hi => Or.inl rfl⟩
      · refine ⟨List.prefix_refl _, by simp [length_updateNth], fun i hi => ?_⟩
        rw [getD_updateNth]
        by_cases hin : i = index
        · subst hin; simp [hi]
        · simp [hin]
  | TOGGLE_INTERVENTION_DISABLED ts index =>
      injection h with h; subst h
      refine ⟨List.prefix_refl _, by simp [length_updateNth], fun i hi => ?_⟩
      rw [getD_updateNth]
      by_cases hin : i = index
      · subst hin; simp [hi]
      · simp [hin]
  | ADD_GROUP ts g =>
      injection h with h; subst h
      exact ⟨List.prefix_refl _, le_refl _, fun i hi => Or.inl rfl⟩
  | REMOVE_GROUP ts index =>
      injection h with h; subst h
      exact ⟨List.prefix_refl _, le_refl _, fun i hi => Or.inl rfl⟩
  | UPDATE_GROUP ts index g =>
      injection h with h; subst h
      exact ⟨List.prefix_refl _, le_refl _, fun i hi => Or.inl rfl⟩
  | ADD_NOTE_TAG ts tag =>
      injection h with h; subst h
      exact ⟨List.prefix_refl _, le_refl _, fun i hi => Or.inl rfl⟩
  | UPDATE_NOTE_TAG ts index tag =>
      injection h with h; subst h
      exact ⟨List.prefix_refl _, le_refl _, fun i hi => Or.inl rfl⟩
  | ADD_CHECKLIST_ITEM ts item =>
      injection h with h; subst h
      exact ⟨List.prefix_refl _, le_refl _, fun i hi => Or.inl rfl⟩
  | UPDATE_CHECKLIST_ITEM ts index item =>
      injection h with h; subst h
      exact ⟨List.prefix_refl _, le_refl _, fun i hi => Or.inl rfl⟩
  | REMOVE_CHECKLIST_ITEM ts index =>
      injection h with h; subst h
      exact ⟨List.prefix_refl _, le_refl _, fun i hi => Or.inl rfl⟩
  | ROLL_TONIGHT ts samples active =>
      injection h with h; subst h
      exact ⟨List.prefix_refl _, le_refl _, fun i hi => Or.inl rfl⟩
  | TOGGLE_PENDING_INTERVENTION ts index active =>
      rw [applyEvent] at h
      cases hp : s.pendingNight <;> rw [hp] at h <;> injection h with h <;> subst h
      · exact ⟨List.prefix_refl _, le_refl _, fun i hi => Or.inl rfl⟩
      · exact ⟨List.prefix_refl _, le_refl _, fun i hi => Or.inl rfl⟩
  | CHECK_CHECKLIST_ITEM ts index label checked =>
      injection h with h; subst h
      exact ⟨List.prefix_refl _, le_refl _, fun i hi => Or.inl rfl⟩
  | MARK_ASLEEP ts =>
      injection h with h; subst h
      exact ⟨List.prefix_refl _, le_refl _, fun i hi => Or.inl rfl⟩
  | TOGGLE_NOTE_TAG ts label checked =>
      injection h with h; subst h
      exact ⟨List.prefix_refl _, le_refl _, fun i hi => Or.inl rfl⟩
  | RECORD_SCORE ts score notes =>
      rw [applyEvent] at h
      cases hp : s.pendingNight <;> rw [hp] at h <;> injection h with h <;> subst h
      · exact ⟨List.prefix_refl _, le_refl _, fun i hi => Or.inl rfl⟩
      · exact ⟨List.prefix_append _ _, le_refl _, fun i hi => Or.inl rfl⟩
  | CANCEL_PENDING ts =>
      injection h with h; subst h
      exact ⟨List.prefix_refl _, le_refl _, fun i hi => Or.inl rfl⟩
  | UPDATE_CONFIG ts cfg =>
      injection h with h; subst h
      exact ⟨List.prefix_refl _, le_refl _, fun i hi => Or.inl rfl⟩

/-- Witness for C9: a `RECORD_SCORE` step on a state with a pending night. -/
theorem applyEvent_never_deletes_witness :
    isStateReplacing (.RECORD_SCORE "t" 70 ⟨[], ""⟩) = false ∧
    applyEvent { DEFAULT_STATE with pendingNight := some ⟨"t0", [true], [1], true⟩ }
        (.RECORD_SCORE "t" 70 ⟨[], ""⟩) =
      .ok { DEFAULT_STATE with observations := [⟨"t0", "t0", "t", [0], 70, some ⟨[], ""⟩⟩] } ∧
    ({ DEFAULT_STATE with
        pendingNight := some ⟨"t0", [true], [1], true⟩ } : AppState).observations <+:
      ({ DEFAULT_STATE with
        observations := [⟨"t0", "t0", "t", [0], 70, some ⟨[], ""⟩⟩] } : AppState).observations :=
  ⟨rfl, rfl,
    (applyEvent_never_deletes
      { DEFAULT_STATE with pendingNight := some ⟨"t0", [true], [1], true⟩ }
      (.RECORD_SCORE "t" 70 ⟨[], ""⟩)
      { DEFAULT_STATE with observations := [⟨"t0", "t0", "t", [0], 70, some ⟨[], ""⟩⟩] }
      rfl rfl).1⟩

/-- C10: with no pending night, `RECORD_SCORE`, `TOGGLE_PENDING_INTERVENTION`
and `MARK_ASLEEP` all succeed and return the state unchanged — in particular
a `RECORD_SCORE` with no preceding `ROLL_TONIGHT` creates no observation and
never fails. -/
theorem applyEvent_noop_without_pending (s : AppState) (h : s.pendingNight = none)
    (t1 t2 t3 : String) (score : ℚ) (notes : Notes) (index : Nat) (active : Bool) :
    applyEvent s (.RECORD_SCORE t1 score notes) = .ok s ∧
    applyEvent s (.TOGGLE_PENDING_INTERVENTION t2 index active) = .ok s ∧
    applyEvent s (.MARK_ASLEEP t3) = .ok s := by
  obtain ⟨ints, obs, pn, gs, cfg, nt, ci⟩ := s
  subst h
  exact ⟨rfl, rfl, rfl⟩

/-- Witness for C10 at the default (empty) state. -/
theorem applyEvent_noop_without_pending_witness :
    DEFAULT_STATE.pendingNight = none ∧
    applyEvent DEFAULT_STATE (.RECORD_SCORE "t1" 80 ⟨[], ""⟩) = .ok DEFAULT_STATE ∧
    applyEvent DEFAULT_STATE (.TOGGLE_PENDING_INTERVENTION "t2" 0 true) = .ok DEFAULT_STATE ∧
    applyEvent DEFAULT_STATE (.MARK_ASLEEP "t3") = .ok DEFAULT_STATE :=
  ⟨rfl, applyEvent_noop_without_pending DEFAULT_STATE rfl "t1" "t2" "t3" 80 ⟨[], ""⟩ 0 true⟩

/-! ## Posterior engine lemmas -/

theorem getD_map_range (f : Nat → α) (n i : Nat) (hi : i < n) (d : α) :
    ((List.range n).map f).getD i d = f i := by
  have hlen : i < ((List.range n).map f).length := by simpa using hi
  rw [List.getD_eq_getElem _ _ hlen]
  simp

theorem entry_scaleMatrix_identity (n : Nat) (c : ℚ) (i j : Nat)
    (hi : i < n) (hj : j < n) :
    entry (scaleMatrix (identity n) c) i j = if i = j then c else 0 := by
  rw [entry, scaleMatrix, identity, List.map_map]
  rw [getD_map_range _ _ _ hi]
  simp only [Function.comp]
  rw [List.map_map, getD_map_range _ _ _ hj]
  by_cases h : i = j <;> simp [h]

/-- The `validObs` filter is idempotent: filtering already-filtered
observations changes nothing. -/
theorem validObservations_idem (k : Nat) (obs : List DenseObservation) :
    validObservations k (validObservations k obs) = validObservations k obs := by
  rw [validObservations, validObservations, List.filter_filter]
  simp [validObservations]

/-- C5: `computePosterior` never fails on observations whose activation
vector has the wrong length — they are filtered out up front, so the result
is exactly the posterior of the well-formed observations alone (no
truncation or padding of bad rows). -/
theorem computePosterior_ignores_mismatched (ints : List String)
    (obs : List DenseObservation) (cfg : StatisticalConfig) :
    computePosterior ints obs cfg =
      computePosterior ints (validObservations ints.length obs) cfg := by
  simp only [computePosterior]
  rw [validObservations_idem]

/-- C6: with a non-empty intervention list and zero valid observations,
`computePosterior` returns the prior exactly: zero mean, `std = tau`
everywhere, and covariance `tau² · I`. -/
theorem computePosterior_prior_when_no_valid_obs (ints : List String)
    (obs : List DenseObservation) (cfg : StatisticalConfig)
    (hk : ints ≠ []) (hv : validObservations ints.length obs = []) :
    (computePosterior ints obs cfg).mean = List.replicate ints.length 0 ∧
    (computePosterior ints obs cfg).std = List.replicate ints.length ((cfg.tau : ℚ) : ℝ) ∧
    (computePosterior ints obs cfg).cov = scaleMatrix (identity ints.length) (cfg.tau * cfg.tau) ∧
    ∀ i j, i < ints.length → j < ints.length →
      entry (computePosterior ints obs cfg).cov i j =
        if i = j then cfg.tau * cfg.tau else 0 := by
  have hk' : ¬ ints.length = 0 := by simpa [List.length_eq_zero] using hk
  have hmain : computePosterior ints obs cfg =
      ⟨List.replicate ints.length 0,
       scaleMatrix (identity ints.length) (cfg.tau * cfg.tau),
       List.replicate ints.length ((cfg.tau : ℚ) : ℝ),
       scaleMatrix (identity ints.length) (1 / (cfg.tau * cfg.tau))⟩ := by
    simp [computePosterior, hv, hk']
  rw [hmain]
  exact ⟨rfl, rfl, rfl, fun i j hi hj => entry_scaleMatrix_identity _ _ _ _ hi hj⟩

/-- Witness for C6 at one intervention, no observations, the default config. -/
theorem computePosterior_prior_when_no_valid_obs_witness :
    (["A"] ≠ ([] : List String)) ∧
    validObservations (["A"].length) ([] : List DenseObservation) = [] ∧
    (computePosterior ["A"] [] ⟨69, 5/2, 12⟩).mean = List.replicate 1 0 ∧
    (computePosterior ["A"] [] ⟨69, 5/2, 12⟩).std = List.replicate 1 ((5/2 : ℚ) : ℝ) :=
  ⟨by simp, rfl,
   (computePosterior_prior_when_no_valid_obs ["A"] [] ⟨69, 5/2, 12⟩ (by simp) rfl).1,
   (computePosterior_prior_when_no_valid_obs ["A"] [] ⟨69, 5/2, 12⟩ (by simp) rfl).2.1⟩

/-! ## `normalCDF` lemmas -/

/-- The exact value of the implemented approximation at `0`: the five
Abramowitz–Stegun coefficients sum to `0.999999999`, not `1`, so
`normalCDF(0)` is `0.5·(1 + 10⁻⁹)`, one half plus `5·10⁻¹⁰`. -/
theorem normalCDF_zero_eq : normalCDF 0 = 1000000001 / 2000000000 := by
  have h2 : ¬ ((0 : ℝ) < 0) := lt_irrefl 0
  simp only [normalCDF, h2, if_false, abs_zero, zero_div, mul_zero, neg_zero,
    zero_mul, add_zero, Real.exp_zero]
  norm_num

/-- C8 counterexample: at `x = 0` the implemented `normalCDF` returns
`0.5 + 5·10⁻¹⁰`, so neither `normalCDF(0) = 0.5` nor the symmetry identity
at `x = 0` holds exactly. -/
theorem normalCDF_zero_counterexample :
    normalCDF 0 ≠ 1 / 2 ∧ normalCDF 0 + normalCDF (-0) ≠ 1 := by
  rw [neg_zero, normalCDF_zero_eq]
  norm_num

/-- C8 amended: the symmetry identity `normalCDF(x) + normalCDF(-x) = 1`
holds exactly for every `x ≠ 0` (both branches share the same `|x|`-based
polynomial and the sign flips), while at `0` the function returns the
exact rational `0.5 + 5·10⁻¹⁰` rather than `0.5`. -/
theorem normalCDF_exact_identities :
    (∀ x : ℝ, x ≠ 0 → normalCDF x + normalCDF (-x) = 1) ∧
    normalCDF 0 = 1000000001 / 2000000000 := by
  refine ⟨fun x hx => ?_, normalCDF_zero_eq⟩
  rcases lt_or_gt_of_ne hx with h | h
  · have h2 : ¬ (-x < 0) := by linarith
    simp only [normalCDF, abs_neg, if_pos h, if_neg h2]
    ring
  · have h1 : ¬ (x < 0) := by linarith
    have h2 : -x < 0 := by linarith
    simp only [normalCDF, abs_neg, if_pos h2, if_neg h1]
    ring

/-- Witness for C8 (amended) at `x = 1`. -/
theorem normalCDF_exact_identities_witness :
    normalCDF 1 + normalCDF (-1) = 1 :=
  normalCDF_exact_identities.1 1 one_ne_zero

/-- Evaluation of `computePosterior` for a single intervention and exactly
one valid observation with activation `[true]`: the conjugate update
collapses to scalars, with posterior precision `1/τ² + 1/σ²`. -/
theorem computePosterior_single_valid_obs (nm : String)
    (obs : List DenseObservation) (cfg : StatisticalConfig) (s : ℚ)
    (hv : validObservations 1 obs = [⟨[true], s⟩]) :
    computePosterior [nm] obs cfg =
      ⟨[(s - cfg.baseline) / (cfg.sigma * cfg.sigma) /
          (1 / (cfg.tau * cfg.tau) + 1 / (cfg.sigma * cfg.sigma))],
       [[1 / (1 / (cfg.tau * cfg.tau) + 1 / (cfg.sigma * cfg.sigma))]],
       [Real.sqrt (((1 / (1 / (cfg.tau * cfg.tau) + 1 / (cfg.sigma * cfg.sigma)) : ℚ) : ℝ))],
       [[1 / (cfg.tau * cfg.tau) + 1 / (cfg.sigma * cfg.sigma)]]⟩ := by
  simp only [computePosterior, List.length_singleton, hv]
  norm_num [transpose, matmul, entry, identity, scaleMatrix, addMatrices, mapWithIndex,
    inverse, luStep, forwardSub, backSub, zeros, setEntry, swapRows, List.range_succ,
    List.range']
  ring

/-- C7: with one intervention, positive `tau` and `sigma`, and a single
valid observation with activation `[true]` and score `s ≠ baseline`, the
posterior mean lies strictly between `0` and the observed effect
`s − baseline`, and the posterior standard deviation is strictly below the
prior standard deviation `tau`. -/
theorem posterior_single_observation (nm : String) (obs : List DenseObservation)
    (cfg : StatisticalConfig) (s : ℚ) (htau : 0 < cfg.tau) (hsigma : 0 < cfg.sigma)
    (hv : validObservations 1 obs = [⟨[true], s⟩]) (hs : s ≠ cfg.baseline) :
    min 0 (s - cfg.baseline) < (computePosterior [nm] obs cfg).mean.getD 0 0 ∧
    (computePosterior [nm] obs cfg).mean.getD 0 0 < max 0 (s - cfg.baseline) ∧
    (computePosterior [nm] obs cfg).std.getD 0 0 < ((cfg.tau : ℚ) : ℝ) := by
  rw [computePosterior_single_valid_obs nm obs cfg s hv]
  set d := s - cfg.baseline with hd
  set c2 := cfg.tau * cfg.tau with hc2def
  set s2 := cfg.sigma * cfg.sigma with hs2def
  have hc2 : 0 < c2 := mul_pos htau htau
  have hs2 : 0 < s2 := mul_pos hsigma hsigma
  have hA : 0 < 1 / c2 + 1 / s2 := by positivity
  have hm : d / s2 / (1 / c2 + 1 / s2) = d * c2 / (s2 + c2) := by
    field_simp
    ring
  have hstd : (([Real.sqrt (((1 / (1 / c2 + 1 / s2) : ℚ) : ℝ))] : List ℝ).getD 0 0) <
      ((cfg.tau : ℚ) : ℝ) := by
    have h1A : (1 / (1 / c2 + 1 / s2) : ℚ) < c2 := by
      rw [div_lt_iff hA]
      have hexp : c2 * (1 / c2 + 1 / s2) = 1 + c2 / s2 := by
        field_simp
        ring
      rw [hexp]
      have : 0 < c2 / s2 := by positivity
      linarith
    have htauR : (0 : ℝ) < ((cfg.tau : ℚ) : ℝ) := by exact_mod_cast htau
    have hcast : (((1 / (1 / c2 + 1 / s2) : ℚ)) : ℝ) < ((cfg.tau : ℚ) : ℝ) ^ 2 := by
      have h2 : (((1 / (1 / c2 + 1 / s2) : ℚ)) : ℝ) < ((c2 : ℚ) : ℝ) := by exact_mod_cast h1A
      have h3 : ((c2 : ℚ) : ℝ) = ((cfg.tau : ℚ) : ℝ) ^ 2 := by
        rw [hc2def]
        push_cast
        ring
      rw [h3] at h2
      exact h2
    simpa using (Real.sqrt_lt' htauR).mpr hcast
  have hd0 : d ≠ 0 := sub_ne_zero.mpr hs
  rcases lt_or_gt_of_ne hd0 with hneg | hpos
  · rw [min_eq_right hneg.le, max_eq_left hneg.le]
    refine ⟨?_, ?_, hstd⟩
    · show d < ([d / s2 / (1 / c2 + 1 / s2)] : List ℚ).getD 0 0
      simp only [List.getD_cons_zero, hm]
      rw [lt_div_iff (by positivity)]
      nlinarith [mul_pos (neg_pos.mpr hneg) hs2]
    · show ([d / s2 / (1 / c2 + 1 / s2)] : List ℚ).getD 0 0 < 0
      simp only [List.getD_cons_zero, hm]
      exact div_neg_of_neg_of_pos (mul_neg_of_neg_of_pos hneg hc2) (by positivity)
  · rw [min_eq_left hpos.le, max_eq_right hpos.le]
    refine ⟨?_, ?_, hstd⟩
    · show (0 : ℚ) < ([d / s2 / (1 / c2 + 1 / s2)] : List ℚ).getD 0 0
      simp only [List.getD_cons_zero, hm]
      positivity
    · show ([d / s2 / (1 / c2 + 1 / s2)] : List ℚ).getD 0 0 < d
      simp only [List.getD_cons_zero, hm]
      rw [div_lt_iff (by positivity)]
      nlinarith [mul_pos hpos hs2]

/-- Witness for C7: one intervention, one `[true]` observation scoring 79
against baseline 69 with the default `tau = 2.5`, `sigma = 12`. -/
theorem posterior_single_observation_witness :
    (0 : ℚ) < 5 / 2 ∧ (0 : ℚ) < 12 ∧
    validObservations 1 [⟨[true], 79⟩] = [⟨[true], (79 : ℚ)⟩] ∧
    ((79 : ℚ) ≠ 69) ∧
    (min 0 ((79 : ℚ) - 69) <
        (computePosterior ["A"] [⟨[true], 79⟩] ⟨69, 5/2, 12⟩).mean.getD 0 0 ∧
      (computePosterior ["A"] [⟨[true], 79⟩] ⟨69, 5/2, 12⟩).mean.getD 0 0 <
        max 0 ((79 : ℚ) - 69) ∧
      (computePosterior ["A"] [⟨[true], 79⟩] ⟨69, 5/2, 12⟩).std.getD 0 0 <
        (((5/2 : ℚ)) : ℝ)) :=
  ⟨by norm_num, by norm_num, rfl, by norm_num,
   posterior_single_observation "A" [⟨[true], 79⟩] ⟨69, 5/2, 12⟩ 79
     (by norm_num) (by norm_num) rfl (by norm_num)⟩

/-! ## Selection policy lemmas -/

theorem getD_set_self_false (l : List Bool) (j : Nat) :
    (l.set j false).getD j false = false := by
  induction l generalizing j with
  | nil => rfl
  | cons a t ih => cases j with
    | zero => rfl
    | succ k => simpa using ih k

theorem getD_set_ne (l : List α) (i j : Nat) (v d : α) (h : i ≠ j) :
    (l.set j v).getD i d = l.getD i d := by
  induction l generalizing i j with
  | nil => rfl
  | cons a t ih =>
      cases j with
      | zero =>
          cases i with
          | zero => exact absurd rfl h
          | succ k => rfl
      | succ m =>
          cases i with
          | zero => rfl
          | succ k => simpa using ih k m (by omega)

theorem getD_mapWithIndex_of_lt (f : Nat → α → β) (l : List α) (i : Nat)
    (d : β) (d' : α) (hi : i < l.length) :
    (mapWithIndex f l).getD i d = f i (l.getD i d') := by
  induction l generalizing f i with
  | nil => simp at hi
  | cons a t ih =>
      cases i with
      | zero => simp [mapWithIndex]
      | succ j =>
          have hj : j < t.length := by simpa using hi
          simpa [mapWithIndex] using ih (fun i x => f (i + 1) x) j hj

theorem foldl_setFalse_length (L : List Nat) (act : List Bool) :
    (L.foldl (fun a idx => a.set idx false) act).length = act.length := by
  induction L generalizing act with
  | nil => rfl
  | cons j t ih => simpa using ih (act.set j false)

theorem foldl_setFalse_not_mem (L : List Nat) (act : List Bool) (i : Nat)
    (hi : i ∉ L) :
    (L.foldl (fun a idx => a.set idx false) act).getD i false = act.getD i false := by
  induction L generalizing act with
  | nil => rfl
  | cons j t ih =>
      have hij : i ≠ j := fun h => hi (h ▸ List.mem_cons_self j t)
      have hit : i ∉ t := fun h => hi (List.mem_cons_of_mem j h)
      simp only [List.foldl_cons]
      rw [ih (act.set j false) hit, getD_set_ne _ _ _ _ _ hij]

theorem foldl_setFalse_mem (L : List Nat) (act : List Bool) (i : Nat)
    (hi : i ∈ L) :
    (L.foldl (fun a idx => a.set idx false) act).getD i false = false := by
  induction L generalizing act with
  | nil => simp at hi
  | cons j t ih =>
      by_cases hit : i ∈ t
      · simpa using ih (act.set j false) hit
      · have hij : i = j := by
          rcases List.mem_cons.mp hi with h | h
          · exact h
          · exact absurd h hit
        subst hij
        simp only [List.foldl_cons]
        rw [foldl_setFalse_not_mem _ _ _ hit]
        exact getD_set_self_false act i

section BestInGroup

variable (ints : List Intervention) (samples : List ℚ)

theorem bestStep_of_cond_true (acc : Option (Nat × ℚ)) (idx : Nat)
    (h : bestCond ints samples acc idx = true) :
    bestStep ints samples acc idx = some (idx, samples.getD idx 0) := by
  simp [bestStep, h]

theorem bestStep_of_cond_false (acc : Option (Nat × ℚ)) (idx : Nat)
    (h : bestCond ints samples acc idx = false) :
    bestStep ints samples acc idx = acc := by
  simp [bestStep, h]

theorem bestCond_true_elig (acc : Option (Nat × ℚ)) (idx : Nat)
    (h : bestCond ints samples acc idx = true) :
    idx < samples.length ∧ disabledAt ints idx = false := by
  simp only [bestCond, Bool.and_eq_true, decide_eq_true_eq, Bool.not_eq_true'] at h
  exact ⟨h.1.1, h.1.2⟩

theorem bestCond_none_of_elig (idx : Nat) (h1 : idx < samples.length)
    (h2 : disabledAt ints idx = false) :
    bestCond ints samples none idx = true := by
  simp [bestCond, h1, h2]

theorem bestCond_some_iff (b0 : Nat) (v0 : ℚ) (idx : Nat) :
    bestCond ints samples (some (b0, v0)) idx = true ↔
      idx < samples.length ∧ disabledAt ints idx = false ∧ v0 < samples.getD idx 0 := by
  simp only [bestCond, Bool.and_eq_true, decide_eq_true_eq, Bool.not_eq_true']
  constructor
  · rintro ⟨⟨h1, h2⟩, h3⟩
    exact ⟨h1, h2, h3⟩
  · rintro ⟨h1, h2, h3⟩
    exact ⟨⟨h1, h2⟩, h3⟩

/-- Shape of the best-in-group fold result: a returned pair carries the
sample of its index, the index is eligible, and it is a member of the
list (or was already in the accumulator). -/
theorem bestStep_foldl_shape (L : List Nat) (acc : Option (Nat × ℚ)) (b : Nat) (v : ℚ)
    (hacc : ∀ b' v', acc = some (b', v') →
      v' = samples.getD b' 0 ∧ b' < samples.length ∧ disabledAt ints b' = false)
    (h : L.foldl (bestStep ints samples) acc = some (b, v)) :
    v = samples.getD b 0 ∧ b < samples.length ∧ disabledAt ints b = false ∧
      (b ∈ L ∨ acc = some (b, v)) := by
  induction L generalizing acc with
  | nil =>
      obtain ⟨h1, h2, h3⟩ := hacc b v h
      exact ⟨h1, h2, h3, Or.inr h⟩
  | cons x t ih =>
      simp only [List.foldl_cons] at h
      cases hc : bestCond ints samples acc x with
      | true =>
          rw [bestStep_of_cond_true ints samples acc x hc] at h
          obtain ⟨hx1, hx2⟩ := bestCond_true_elig ints samples acc x hc
          obtain ⟨h1, h2, h3, h4⟩ := ih (some (x, samples.getD x 0))
            (fun b' v' hbv => by
              injection hbv with hbv
              injection hbv with hb hv
              subst hb
              exact ⟨hv.symm, hx1, hx2⟩) h
          rcases h4 with hb | hb
          · exact ⟨h1, h2, h3, Or.inl (List.mem_cons_of_mem x hb)⟩
          · injection hb with hb
            injection hb with hb _
            subst hb
            exact ⟨h1, h2, h3, Or.inl (List.mem_cons_self _ _)⟩
      | false =>
          rw [bestStep_of_cond_false ints samples acc x hc] at h
          obtain ⟨h1, h2, h3, h4⟩ := ih acc hacc h
          rcases h4 with hb | hb
          · exact ⟨h1, h2, h3, Or.inl (List.mem_cons_of_mem x hb)⟩
          · exact ⟨h1, h2, h3, Or.inr hb⟩

/-- From a `some` accumulator the fold either keeps it or strictly
increases its sample value. -/
theorem bestStep_foldl_mono (L : List Nat) (b0 : Nat) (v0 : ℚ) (b : Nat) (v : ℚ)
    (h : L.foldl (bestStep ints samples) (some (b0, v0)) = some (b, v)) :
    (b = b0 ∧ v = v0) ∨ v0 < v := by
  induction L generalizing b0 v0 with
  | nil =>
      injection h with h
      injection h with h1 h2
      exact Or.inl ⟨h1.symm, h2.symm⟩
  | cons x t ih =>
      simp only [List.foldl_cons] at h
      cases hc : bestCond ints samples (some (b0, v0)) x with
      | true =>
          rw [bestStep_of_cond_true ints samples _ x hc] at h
          have hgt : v0 < samples.getD x 0 :=
            ((bestCond_some_iff ints samples b0 v0 x).mp hc).2.2
          rcases ih _ _ h with ⟨_, hv⟩ | hv
          · exact Or.inr (hv ▸ hgt)
          · exact Or.inr (lt_trans hgt hv)
      | false =>
          rw [bestStep_of_cond_false ints samples _ x hc] at h
          exact ih _ _ h

/-- Maximality: the fold's result dominates the sample of every eligible
member of the list. -/
theorem bestStep_foldl_max (L : List Nat) (acc : Option (Nat × ℚ)) (b : Nat) (v : ℚ)
    (h : L.foldl (bestStep ints samples) acc = some (b, v)) :
    ∀ j ∈ L, j < samples.length → disabledAt ints j = false →
      samples.getD j 0 ≤ v := by
  induction L generalizing acc with
  | nil => intro j hj; simp at hj
  | cons x t ih =>
      intro j hj hjlen hjdis
      simp only [List.foldl_cons] at h
      rcases List.mem_cons.mp hj with hjx | hjt
      · subst hjx
        cases hacc : acc with
        | none =>
            rw [hacc, bestStep_of_cond_true ints samples none j
              (bestCond_none_of_elig ints samples j hjlen hjdis)] at h
            rcases bestStep_foldl_mono ints samples t _ _ _ _ h with ⟨_, hv⟩ | hv
            · exact le_of_eq hv.symm
            · exact le_of_lt hv
        | some best =>
            obtain ⟨b0, v0⟩ := best
            by_cases hbeats : v0 < samples.getD j 0
            · rw [hacc, bestStep_of_cond_true ints samples _ j
                ((bestCond_some_iff ints samples b0 v0 j).mpr ⟨hjlen, hjdis, hbeats⟩)] at h
              rcases bestStep_foldl_mono ints samples t _ _ _ _ h with ⟨_, hv⟩ | hv
              · exact le_of_eq hv.symm
              · exact le_of_lt hv
            · have hcond : bestCond ints samples (some (b0, v0)) j = false := by
                cases hcf : bestCond ints samples (some (b0, v0)) j with
                | false => rfl
                | true =>
                    exact absurd ((bestCond_some_iff ints samples b0 v0 j).mp hcf).2.2 hbeats
              rw [hacc, bestStep_of_cond_false ints samples _ j hcond] at h
              have hle : samples.getD j 0 ≤ v0 := le_of_not_lt hbeats
              rcases bestStep_foldl_mono ints samples t _ _ _ _ h with ⟨_, hv⟩ | hv
              · exact hv ▸ hle
              · exact le_of_lt (lt_of_le_of_lt hle hv)
      · exact ih (bestStep ints samples acc x) h j hjt hjlen hjdis

/-- First-on-ties: with strictly increasing member indices, the fold
returns the least index among eligible members attaining the maximum. -/
theorem bestStep_foldl_first (L : List Nat) (acc : Option (Nat × ℚ)) (b : Nat) (v : ℚ)
    (hsorted : List.Pairwise (· < ·) L)
    (hacc : acc = none ∨ ∃ b0 v0, acc = some (b0, v0) ∧ ∀ j ∈ L, b0 < j)
    (h : L.foldl (bestStep ints samples) acc = some (b, v)) :
    ∀ j ∈ L, j < samples.length → disabledAt ints j = false →
      samples.getD j 0 = v → b ≤ j := by
  induction L generalizing acc with
  | nil => intro j hj; simp at hj
  | cons x t ih =>
      intro j hj hjlen hjdis hjv
      have hsorted2 : List.Pairwise (· < ·) t := hsorted.tail
      have hxt : ∀ j ∈ t, x < j := fun j hjmem => List.rel_of_pairwise_cons hsorted hjmem
      simp only [List.foldl_cons] at h
      rcases List.mem_cons.mp hj with hjx | hjt
      · subst hjx
        cases hc : bestCond ints samples acc j with
        | true =>
            rw [bestStep_of_cond_true ints samples acc j hc] at h
            rcases bestStep_foldl_mono ints samples t _ _ _ _ h with ⟨hb, _⟩ | hv
            · exact le_of_eq hb
            · exact absurd hjv (ne_of_lt hv)
        | false =>
            rcases hacc with hnone | ⟨b0, v0, hsome, hb0⟩
            · exfalso
              rw [hnone] at hc
              rw [bestCond_none_of_elig ints samples j hjlen hjdis] at hc
              exact Bool.noConfusion hc
            · rw [hsome] at hc
              have hle : samples.getD j 0 ≤ v0 := by
                by_contra hgt
                rw [(bestCond_some_iff ints samples b0 v0 j).mpr
                  ⟨hjlen, hjdis, lt_of_not_le hgt⟩] at hc
                exact Bool.noConfusion hc
              rw [hsome, bestStep_of_cond_false ints samples _ j hc] at h
              rcases bestStep_foldl_mono ints samples t _ _ _ _ h with ⟨hb, _⟩ | hv
              · exact le_of_lt (hb ▸ hb0 j (List.mem_cons_self _ _))
              · exact absurd hjv (ne_of_lt (lt_of_le_of_lt hle hv))
      · refine ih (bestStep ints samples acc x) hsorted2 ?_ h j hjt hjlen hjdis hjv
        cases hc : bestCond ints samples acc x with
        | true =>
            exact Or.inr ⟨x, samples.getD x 0,
              bestStep_of_cond_true ints samples acc x hc, hxt⟩
        | false =>
            rw [bestStep_of_cond_false ints samples acc x hc]
            rcases hacc with hnone | ⟨b0, v0, hsome, hb0⟩
            · exact Or.inl hnone
            · exact Or.inr ⟨b0, v0, hsome,
                fun j hjmem => hb0 j (List.mem_cons_of_mem x hjmem)⟩

end BestInGroup

theorem processGroup_length (ints : List Intervention) (samples : List ℚ)
    (act : List Bool) (g : Group) :
    (processGroup ints samples act g).length = act.length := by
  rw [processGroup]
  cases hbest : bestInGroup ints samples g with
  | none => simpa using foldl_setFalse_length _ act
  | some best =>
      obtain ⟨bi, bv⟩ := best
      by_cases hc : (decide (0 < bv) && !(disabledAt ints bi)) = true <;>
        simp [hc, foldl_setFalse_length]

theorem processGroup_not_mem (ints : List Intervention) (samples : List ℚ)
    (act : List Bool) (g : Group) (i : Nat) (hi : i ∉ g.interventionIndices) :
    (processGroup ints samples act g).getD i false = act.getD i false := by
  rw [processGroup]
  cases hbest : bestInGroup ints samples g with
  | none => simpa using foldl_setFalse_not_mem _ act i hi
  | some best =>
      obtain ⟨bi, bv⟩ := best
      have hbi : bi ∈ g.interventionIndices := by
        rcases (bestStep_foldl_shape ints samples g.interventionIndices none bi bv
          (fun b' v' hbv => Option.noConfusion hbv) hbest).2.2.2 with hmem | habs
        · exact hmem
        · exact Option.noConfusion habs
      have hne : i ≠ bi := fun h => hi (h ▸ hbi)
      by_cases hc : (decide (0 < bv) && !(disabledAt ints bi)) = true
      · simp only [hc, if_true]
        rw [getD_set_ne _ _ _ _ _ hne]
        exact foldl_setFalse_not_mem _ act i hi
      · simp only [hc, if_false]
        exact foldl_setFalse_not_mem _ act i hi

/-- Characterization of activation at a group member after the group's
pass: exactly the best member, with a positive sample and not disabled. -/
theorem processGroup_mem_iff (ints : List Intervention) (samples : List ℚ)
    (act : List Bool) (g : Group) (i : Nat) (hi : i ∈ g.interventionIndices)
    (hlen : act.length = samples.length) :
    ((processGroup ints samples act g).getD i false = true ↔
      ∃ v, bestInGroup ints samples g = some (i, v) ∧ 0 < v ∧
        disabledAt ints i = false) := by
  rw [processGroup]
  cases hbest : bestInGroup ints samples g with
  | none =>
      simp only []
      rw [foldl_setFalse_mem _ act i hi]
      simp
  | some best =>
      obtain ⟨bi, bv⟩ := best
      obtain ⟨hv, hbilen, hbidis, hbimem⟩ :=
        bestStep_foldl_shape ints samples g.interventionIndices none bi bv
          (fun b' v' hbv => Option.noConfusion hbv) hbest
      by_cases hc : (decide (0 < bv) && !(disabledAt ints bi)) = true
      · simp only [hc, if_true]
        have hcpos : 0 < bv ∧ disabledAt ints bi = false := by
          simp only [Bool.and_eq_true, decide_eq_true_eq, Bool.not_eq_true'] at hc
          exact hc
        by_cases hibi : i = bi
        · subst hibi
          have hlt : i < (g.interventionIndices.foldl
              (fun a idx => a.set idx false) act).length := by
            rw [foldl_setFalse_length]
            rw [hlen]
            exact hbilen
          constructor
          · intro _
            exact ⟨bv, rfl, hcpos.1, hcpos.2⟩
          · intro _
            rw [List.getD_eq_getElem _ _ (by simpa using hlt)]
            simp [List.getElem_set_eq (by simpa using hlt)]
        · rw [getD_set_ne _ _ _ _ _ hibi, foldl_setFalse_mem _ act i hi]
          constructor
          · intro habs
            exact Bool.noConfusion habs
          · rintro ⟨v, hvbest, _, _⟩
            injection hvbest with hvbest
            injection hvbest with hb _
            exact absurd hb.symm hibi
      · simp only [hc, if_false]
        rw [if_neg (by simp), foldl_setFalse_mem _ act i hi]
        constructor
        · intro habs
          exact Bool.noConfusion habs
        · rintro ⟨v, hvbest, hvpos, hvdis⟩
          injection hvbest with hvbest
          injection hvbest with hb hv2
          subst hb
          subst hv2
          exact absurd (by simp [hvpos, hvdis]) hc

theorem foldl_processGroup_length (ints : List Intervention) (samples : List ℚ)
    (gs : List Group) (act : List Bool) :
    (gs.foldl (processGroup ints samples) act).length = act.length := by
  induction gs generalizing act with
  | nil => rfl
  | cons g t ih =>
      simp only [List.foldl_cons]
      rw [ih, processGroup_length]

theorem foldl_processGroup_not_mem (ints : List Intervention) (samples : List ℚ)
    (gs : List Group) (act : List Bool) (i : Nat)
    (hi : ∀ g ∈ gs, i ∉ g.interventionIndices) :
    (gs.foldl (processGroup ints samples) act).getD i false = act.getD i false := by
  induction gs generalizing act with
  | nil => rfl
  | cons g t ih =>
      simp only [List.foldl_cons]
      rw [ih _ (fun h hmem => hi h (List.mem_cons_of_mem g hmem)),
        processGroup_not_mem _ _ _ _ _ (hi g (List.mem_cons_self _ _))]

/-- Activation at a member of a group `g` in a pairwise-disjoint group
list is decided by `g`'s own pass alone: later groups never touch `g`'s
indices. -/
theorem foldl_processGroup_mem (ints : List Intervention) (samples : List ℚ)
    (gs : List Group) (act : List Bool)
    (hdisj : gs.Pairwise (fun g1 g2 => ∀ i ∈ g1.interventionIndices,
      i ∉ g2.interventionIndices))
    (g : Group) (hg : g ∈ gs) (i : Nat) (hi : i ∈ g.interventionIndices)
    (hlen : act.length = samples.length) :
    ((gs.foldl (processGroup ints samples) act).getD i false = true ↔
      ∃ v, bestInGroup ints samples g = some (i, v) ∧ 0 < v ∧
        disabledAt ints i = false) := by
  obtain ⟨pre, post, rfl⟩ := List.append_of_mem hg
  rw [List.foldl_append, List.foldl_cons]
  have hpost : ∀ h ∈ post, i ∉ h.interventionIndices := by
    have hsub : (g :: post).Pairwise (fun g1 g2 => ∀ i ∈ g1.interventionIndices,
        i ∉ g2.interventionIndices) :=
      hdisj.sublist (List.sublist_append_right pre (g :: post))
    intro h hmem
    exact (List.pairwise_cons.mp hsub).1 h hmem i hi
  rw [foldl_processGroup_not_mem ints samples post _ i hpost]
  exact processGroup_mem_iff ints samples _ g i hi
    (by rw [foldl_processGroup_length]; exact hlen)

/-- C4 (amended): for pairwise-disjoint groups listed with strictly
increasing member indices, the nightly roll activates an ungrouped index
iff its sample is positive and it is not disabled; activates at most one
member per group; and any activated group member is not disabled, has a
positive sample that is maximal among the group's eligible members, and is
the least-index member on ties. -/
theorem rollTonight_group_exclusive (ints : List Intervention) (gs : List Group)
    (samples : List ℚ) (hlen : samples.length = ints.length)
    (hdisj : gs.Pairwise (fun g1 g2 => ∀ i ∈ g1.interventionIndices,
      i ∉ g2.interventionIndices))
    (hsorted : ∀ g ∈ gs, g.interventionIndices.Pairwise (· < ·)) :
    (∀ i, i < samples.length → (∀ g ∈ gs, i ∉ g.interventionIndices) →
      (rollActive ints gs samples).getD i false =
        (decide (0 < samples.getD i 0) && !(disabledAt ints i))) ∧
    (∀ g ∈ gs, ∀ i ∈ g.interventionIndices, ∀ j ∈ g.interventionIndices,
      (rollActive ints gs samples).getD i false = true →
      (rollActive ints gs samples).getD j false = true → i = j) ∧
    (∀ g ∈ gs, ∀ i ∈ g.interventionIndices,
      (rollActive ints gs samples).getD i false = true →
      0 < samples.getD i 0 ∧ disabledAt ints i = false ∧
      (∀ j ∈ g.interventionIndices, j < samples.length →
        disabledAt ints j = false → samples.getD j 0 ≤ samples.getD i 0) ∧
      (∀ j ∈ g.interventionIndices, j < samples.length →
        disabledAt ints j = false → samples.getD j 0 = samples.getD i 0 → i ≤ j)) := by
  have hact0len : (mapWithIndex
      (fun i s => decide (0 < s) && !(disabledAt ints i)) samples).length =
      samples.length := length_mapWithIndex _ _
  refine ⟨?_, ?_, ?_⟩
  · intro i hilen hng
    rw [rollActive]
    rw [foldl_processGroup_not_mem ints samples gs _ i hng]
    exact getD_mapWithIndex_of_lt _ samples i false 0 hilen
  · intro g hg i hi j hj hai haj
    rw [rollActive] at hai haj
    obtain ⟨v, hv, _, _⟩ :=
      (foldl_processGroup_mem ints samples gs _ hdisj g hg i hi hact0len).mp hai
    obtain ⟨w, hw, _, _⟩ :=
      (foldl_processGroup_mem ints samples gs _ hdisj g hg j hj hact0len).mp haj
    rw [hv] at hw
    injection hw with hw
    exact congrArg Prod.fst hw
  · intro g hg i hi hai
    rw [rollActive] at hai
    obtain ⟨v, hv, hpos, hdis⟩ :=
      (foldl_processGroup_mem ints samples gs _ hdisj g hg i hi hact0len).mp hai
    obtain ⟨hveq, hilen, hidis, _⟩ :=
      bestStep_foldl_shape ints samples g.interventionIndices none i v
        (fun b' v' hbv => Option.noConfusion hbv) hv
    refine ⟨hveq ▸ hpos, hdis, ?_, ?_⟩
    · intro j hj hjlen hjdis
      exact hveq ▸ bestStep_foldl_max ints samples g.interventionIndices none i v hv
        j hj hjlen hjdis
    · intro j hj hjlen hjdis hjv
      exact bestStep_foldl_first ints samples g.interventionIndices none i v
        (hsorted g hg) (Or.inl rfl) hv j hj hjlen hjdis (hveq ▸ hjv)

/-- C4 counterexample: with the overlapping groups `[0,1]` and `[1,2]` and
samples `[4, 2, 1]` (all three interventions enabled), the sequential group
passes re-activate index 1 after group `[0,1]` already activated index 0,
so BOTH members 0 and 1 of group `[0,1]` end up active — refuting "within
each group at most one member is active" as universally stated. -/
theorem rollActive_overlap_counterexample :
    rollActive [⟨"a", false⟩, ⟨"b", false⟩, ⟨"c", false⟩]
        [⟨"g1", [0, 1]⟩, ⟨"g2", [1, 2]⟩] [4, 2, 1] = [true, true, false] ∧
    (⟨"g1", [0, 1]⟩ : Group) ∈
      [(⟨"g1", [0, 1]⟩ : Group), ⟨"g2", [1, 2]⟩] ∧
    (0 : Nat) ∈ [0, 1] ∧ (1 : Nat) ∈ [0, 1] := by
  refine ⟨?_, by simp, by simp, by simp⟩
  norm_num [rollActive, processGroup, bestInGroup, bestStep, bestCond, mapWithIndex,
    disabledAt, activeIndices]

/-- Witness for C4 on the spec's scenario (one group `[0,1]`, samples
`1.5` and `2`): only index 1 activates. -/
theorem rollTonight_group_exclusive_witness :
    (([3/2, 2] : List ℚ).length = ([⟨"a", false⟩, ⟨"b", false⟩] : List Intervention).length) ∧
    ([(⟨"g", [0, 1]⟩ : Group)].Pairwise (fun g1 g2 => ∀ i ∈ g1.interventionIndices,
      i ∉ g2.interventionIndices)) ∧
    (∀ g ∈ [(⟨"g", [0, 1]⟩ : Group)], g.interventionIndices.Pairwise (· < ·)) ∧
    (∀ g ∈ [(⟨"g", [0, 1]⟩ : Group)], ∀ i ∈ g.interventionIndices,
      ∀ j ∈ g.interventionIndices,
      (rollActive [⟨"a", false⟩, ⟨"b", false⟩] [⟨"g", [0, 1]⟩] [3/2, 2]).getD i false = true →
      (rollActive [⟨"a", false⟩, ⟨"b", false⟩] [⟨"g", [0, 1]⟩] [3/2, 2]).getD j false = true →
      i = j) ∧
    rollActive [⟨"a", false⟩, ⟨"b", false⟩] [⟨"g", [0, 1]⟩] [3/2, 2] = [false, true] := by
  refine ⟨rfl, by simp, by simp, (rollTonight_group_exclusive
    [⟨"a", false⟩, ⟨"b", false⟩] [⟨"g", [0, 1]⟩] [3/2, 2] rfl (by simp) (by simp)).2.1, ?_⟩
  norm_num [rollActive, processGroup, bestInGroup, bestStep, bestCond, mapWithIndex,
    disabledAt]

end SleepBandit
